import Mathlib

/-!
Verification of the vcglib OpenVDB remeshing orchestration layer:
the winding-number interior test, the narrow-band width policies of
`OpenVDBAdapter::meshToVolume` / `meshToLevelSet`, the soup-to-mesh
reconstruction of `OpenVDBAdapter::volumeToMesh`, and the fork-join
primitive `igl::parallel_for` with its worker-count resolution
`igl::default_num_threads`.
-/

namespace VCGLib

/-! ## Winding-number interior test

From `wrap/WindingNumber/WindingNumber.h` and the `interiorTest` lambda in
`wrap/openvdb/OpenVDBAdapter.h::meshToVolume`.  The hierarchical solid-angle
summation service (`HDK_Sample::UT_SolidAngle`) is external; it is modelled
as an abstract function `solidAngle : point → accuracyScale → ℝ`. -/

/-- A 3D world-space point. -/
abbrev Pt := ℝ × ℝ × ℝ

/-- `openvdb::math::Transform::createLinearTransform(voxelSize)` maps grid
index space to world space by uniform scaling with `voxelSize`
(`xform->indexToWorld(coord)`). -/
noncomputable def indexToWorld (voxelSize : ℝ) (coord : ℤ × ℤ × ℤ) : Pt :=
  (voxelSize * coord.1, voxelSize * coord.2.1, voxelSize * coord.2.2)

/-- `WindingNumber::computeWindingNumber`: the solid angle returned by the
summation service, divided by `4π`. -/
noncomputable def computeWindingNumber (solidAngle : Pt → ℝ → ℝ) (coordV : Pt)
    (accuracyScale : ℝ) : ℝ :=
  solidAngle coordV accuracyScale / (4 * Real.pi)

/-- The default value of the `accuracy_scale` argument of
`WindingNumber::computeWindingNumber` (`double accuracy_scale = 2.0`). -/
noncomputable def defaultAccuracyScale : ℝ := 2

/-- The `interiorTest` lambda of `OpenVDBAdapter::meshToVolume`: map the grid
coordinate to world space, evaluate the winding number with the configured
`voxelSize` as the accuracy scale, and classify as inside when the absolute
value is at least `0.5`. -/
def interiorTest (solidAngle : Pt → ℝ → ℝ) (voxelSize : ℝ)
    (coord : ℤ × ℤ × ℤ) : Prop :=
  |computeWindingNumber solidAngle (indexToWorld voxelSize coord) voxelSize| ≥ 0.5

/-! ## Narrow-band widths

From `OpenVDBAdapter::meshToVolume` (outer/inner band) and
`OpenVDBAdapter::meshToLevelSet` (half-width band).  The floating-point
arithmetic is modelled exactly over `ℚ`. -/

/-- `float outerBand = (isovalue > 0 ? isovalue/voxelSize : 0.0f) + 0.5f;` -/
def outerBand (isovalue voxelSize : ℚ) : ℚ :=
  (if isovalue > 0 then isovalue / voxelSize else 0) + 1/2

/-- `float innerBand = (isovalue < 0 ? (-isovalue)/voxelSize : 0.0f) + 0.5f;` -/
def innerBand (isovalue voxelSize : ℚ) : ℚ :=
  (if isovalue < 0 then (-isovalue) / voxelSize else 0) + 1/2

/-- The half-width band passed by `OpenVDBAdapter::meshToLevelSet` to
`openvdb::tools::meshToLevelSet`: `std::fabs(isovalue/voxelSize) + 1.0f`. -/
def levelSetHalfWidth (isovalue voxelSize : ℚ) : ℚ :=
  |isovalue / voxelSize| + 1

/-! ## igl::parallel_for -/

/-- `std::round`: round to nearest integer, halfway cases away from zero. -/
def cppRound (q : ℚ) : ℤ :=
  if q ≥ 0 then ⌊q + 1/2⌋ else -⌊-q + 1/2⌋

/-- The slice computation of the parallel path of `igl::parallel_for`:
`slice = max((Index)round((loop_size+1)/(double)nthreads), (Index)1)`. -/
def sliceSize (loopSize nthreads : ℕ) : ℤ :=
  max (cppRound ((loopSize + 1 : ℚ) / nthreads)) 1

/-- `sliceSize` as a natural number (it is always at least 1). -/
def sliceNat (loopSize nthreads : ℕ) : ℕ :=
  (sliceSize loopSize nthreads).toNat

/-- One observable call made by `igl::parallel_for`:
`prep_func n`, `func i t`, or `accum_func t`. -/
inductive PfEvent where
  | prep (n : ℕ)
  | body (i t : ℕ)
  | accum (t : ℕ)
deriving DecidableEq, Repr

/-- Extract the loop index of a `body` event. -/
def bodyIdx : PfEvent → Option ℕ
  | .body i _ => some i
  | _ => none

/-- Extract the worker id of an `accum` event. -/
def accumIdx : PfEvent → Option ℕ
  | .accum t => some t
  | _ => none

/-- The spawning loop of the parallel path of `igl::parallel_for`.  The C++
loop runs `for (t = 0; t+1 < nthreads && i1 < loop_size; ++t)`, spawning
`range(i1, i2, t)` with `i2 = min(i1 + slice, loop_size)`, then advances
`i1 = i2`; after the loop, if `i1 < loop_size` the remainder
`range(i1, loop_size, t)` is spawned with the current `t`.  Here `fuel`
stands for `nthreads - 1 - t`, so `fuel = 0` is the exit `t+1 = nthreads`.
Each spawned slice is recorded as `(k1, k2, t)`. -/
def poolLoop (slice loopSize : ℕ) : ℕ → ℕ → ℕ → List (ℕ × ℕ × ℕ)
  | 0, t, i1 => if i1 < loopSize then [(i1, loopSize, t)] else []
  | fuel + 1, t, i1 =>
    if i1 < loopSize then
      (i1, min (i1 + slice) loopSize, t) ::
        poolLoop slice loopSize fuel (t + 1) (min (i1 + slice) loopSize)
    else []

/-- The slices spawned by the parallel path of `igl::parallel_for`, with the
slice size actually computed there. -/
def parallelSlices (loopSize nthreads : ℕ) : List (ℕ × ℕ × ℕ) :=
  poolLoop (sliceNat loopSize nthreads) loopSize (nthreads - 1) 0 0

/-- The call trace of the parallel path of `igl::parallel_for`:
`prep_func(nthreads)`, then each spawned slice `(k1, k2, t)` runs
`func(k, t)` for `k1 ≤ k < k2`, all threads are joined, and finally
`accum_func(t)` for `t = 0, …, nthreads-1`. -/
def parallelEvents (loopSize nthreads : ℕ) : List PfEvent :=
  PfEvent.prep nthreads ::
    ((parallelSlices loopSize nthreads).flatMap fun s =>
      (List.range' s.1 (s.2.1 - s.1)).map fun i => PfEvent.body i s.2.2) ++
    (List.range nthreads).map PfEvent.accum

/-- `igl::parallel_for(loop_size, prep_func, func, accum_func, min_parallel)`
with the worker count `nthreads` already resolved: returns whether the thread
pool was invoked, together with the trace of calls.  `loop_size == 0` returns
`false` at once; `loop_size < min_parallel || nthreads <= 1` runs the serial
branch `prep_func(1); for (i = 0; i < loop_size; i++) func(i, 0);
accum_func(0);` and returns `false`; otherwise the parallel path runs. -/
def parallelForRun (loopSize minParallel nthreads : ℕ) : Bool × List PfEvent :=
  if loopSize = 0 then (false, [])
  else if loopSize < minParallel ∨ nthreads ≤ 1 then
    (false, PfEvent.prep 1 ::
      ((List.range loopSize).map fun i => PfEvent.body i 0) ++ [PfEvent.accum 0])
  else
    (true, parallelEvents loopSize nthreads)

/-! ## igl::default_num_threads -/

/-- The resolution order inside the `MySingleton` constructor of
`igl::default_num_threads`: a nonzero `force_num_threads` wins; else the
`IGL_NUM_THREADS` environment value if it parses to a positive int; else
`std::thread::hardware_concurrency()` if nonzero; else the fallback `8`.
`env = none` models an unset variable, `env = some v` the `atoi` result. -/
def resolveNumThreads (force : ℕ) (env : Option ℤ) (hw : ℕ) : ℕ :=
  if force ≠ 0 then force
  else
    match env with
    | some v => if 0 < v then v.toNat else if hw ≠ 0 then hw else 8
    | none => if hw ≠ 0 then hw else 8

/-- `igl::default_num_threads(user_num_threads)`: the Meyers singleton is
constructed on the first call only, from that call's argument and
environment; every later call returns the memoized value.  The singleton
state is passed explicitly: `memo = none` before the first call.  Returns
the result together with the new state. -/
def default_num_threads (memo : Option ℕ) (force : ℕ) (env : Option ℤ)
    (hw : ℕ) : ℕ × Option ℕ :=
  match memo with
  | some m => (m, some m)
  | none =>
    let r := resolveNumThreads force env hw
    (r, some r)

/-! ## OpenVDBAdapter::volumeToMesh -/

/-- The output mesh: vertex positions and faces as index triples
(`fi->V(k) = &outMesh.vert[j]` is recorded as index `j` in slot `k`). -/
structure OutMesh where
  vert : List (ℚ × ℚ × ℚ)
  face : List (ℕ × ℕ × ℕ)
deriving DecidableEq, Repr

/-- The vertex copy loop of `volumeToMesh`: each extracted position is
copied componentwise, in order. -/
def copyVerts : List (ℚ × ℚ × ℚ) → List (ℚ × ℚ × ℚ)
  | [] => []
  | p :: rest => (p.1, p.2.1, p.2.2) :: copyVerts rest

/-- The triangle loop of `volumeToMesh`: each extracted triangle
`(a, b, c)` is emitted as one face with reversed winding `(c, b, a)`. -/
def triFaces : List (ℕ × ℕ × ℕ) → List (ℕ × ℕ × ℕ)
  | [] => []
  | (a, b, c) :: rest => (c, b, a) :: triFaces rest

/-- The quad loop of `volumeToMesh`: each extracted quad `(a, b, c, d)` is
emitted as the two faces `(c, b, a)` and `(d, c, a)`. -/
def quadFaces : List (ℕ × ℕ × ℕ × ℕ) → List (ℕ × ℕ × ℕ)
  | [] => []
  | (a, b, c, d) :: rest => (c, b, a) :: (d, c, a) :: quadFaces rest

/-- The mesh built by `OpenVDBAdapter::volumeToMesh` from an extracted
vertex/triangle/quad soup: `outMesh.Clear()`, then `mVtx.size()` vertices
and `mTri.size() + mQuad.size() * 2` faces are allocated and filled by the
three loops. -/
def volumeToMeshModel (vtx : List (ℚ × ℚ × ℚ)) (tri : List (ℕ × ℕ × ℕ))
    (quad : List (ℕ × ℕ × ℕ × ℕ)) : OutMesh :=
  { vert := copyVerts vtx
    face := triFaces tri ++ quadFaces quad }

/-- The extraction output consumed by `volumeToMesh`. -/
structure Soup where
  vtx : List (ℚ × ℚ × ℚ)
  tri : List (ℕ × ℕ × ℕ)
  quad : List (ℕ × ℕ × ℕ × ℕ)

/-- `OpenVDBAdapter::volumeToMesh(outMesh)` around the external
`openvdb::tools::volumeToMesh` call: if extraction throws, the exception
propagates before `outMesh.Clear()` runs, so `outMesh` keeps its prior
state; on success the mesh is rebuilt from the soup. -/
def volumeToMeshGuarded (extraction : Except String Soup) (outMesh : OutMesh) :
    Except String Unit × OutMesh :=
  match extraction with
  | .error e => (.error e, outMesh)
  | .ok s => (.ok (), volumeToMeshModel s.vtx s.tri s.quad)

/-! ## Helper lemmas -/

/-- The vertex copy loop reproduces the extracted vertex list. -/
lemma copyVerts_eq : ∀ l : List (ℚ × ℚ × ℚ), copyVerts l = l
  | [] => rfl
  | ⟨x, y, z⟩ :: rest => by rw [copyVerts, copyVerts_eq rest]

/-- The triangle loop is the winding-reversing map. -/
lemma triFaces_eq_map (l : List (ℕ × ℕ × ℕ)) :
    triFaces l = l.map fun x => (x.2.2, x.2.1, x.1) := by
  induction l with
  | nil => rfl
  | cons hd tl ih => obtain ⟨a, b, c⟩ := hd; rw [triFaces, ih]; rfl

/-- The quad loop emits the two split triangles per quad. -/
lemma quadFaces_eq_flatMap (l : List (ℕ × ℕ × ℕ × ℕ)) :
    quadFaces l = l.flatMap fun q =>
      [(q.2.2.1, q.2.1, q.1), (q.2.2.2, q.2.2.1, q.1)] := by
  induction l with
  | nil => rfl
  | cons hd tl ih => obtain ⟨a, b, c, d⟩ := hd; rw [quadFaces, ih]; rfl

/-- The quad loop emits exactly two faces per quad. -/
lemma quadFaces_length (l : List (ℕ × ℕ × ℕ × ℕ)) :
    (quadFaces l).length = 2 * l.length := by
  induction l with
  | nil => rfl
  | cons hd tl ih =>
    obtain ⟨a, b, c, d⟩ := hd
    rw [quadFaces, List.length_cons, List.length_cons, ih, List.length_cons]
    ring

/-! ## Claim theorems -/

/-- C1: the interior test used by Policy B classifies a point as inside if and
only if the absolute value of its generalized winding number is at least 0.5,
the winding number being the solid angle returned by the summation service
divided by 4π; for every query point. -/
theorem interiorTest_winding_threshold (solidAngle : Pt → ℝ → ℝ)
    (voxelSize : ℝ) (coord : ℤ × ℤ × ℤ) :
    interiorTest solidAngle voxelSize coord ↔
      |solidAngle (indexToWorld voxelSize coord) voxelSize / (4 * Real.pi)| ≥ 0.5 :=
  Iff.rfl

/-- C2: for every configuration with `voxelSize > 0`, Policy B passes the
external volume kernel an outer band `max(isovalue,0)/voxelSize + 0.5` and an
inner band `max(-isovalue,0)/voxelSize + 0.5`. -/
theorem meshToVolume_band_widths (isovalue voxelSize : ℚ)
    (h : 0 < voxelSize) :
    outerBand isovalue voxelSize = max isovalue 0 / voxelSize + 1/2 ∧
    innerBand isovalue voxelSize = max (-isovalue) 0 / voxelSize + 1/2 := by
  constructor
  · rw [outerBand]
    rcases le_or_lt isovalue 0 with hle | hlt
    · rw [if_neg (not_lt.mpr hle), max_eq_right hle, zero_div]
    · rw [if_pos hlt, max_eq_left hlt.le]
  · rw [innerBand]
    rcases le_or_lt 0 isovalue with hle | hlt
    · rw [if_neg (not_lt.mpr hle), max_eq_right (neg_nonpos.mpr hle), zero_div]
    · rw [if_pos hlt, max_eq_left (neg_nonneg.mpr hlt.le)]

/-- Witness for C2 at `isovalue = 2`, `voxelSize = 1`. -/
theorem meshToVolume_band_widths_witness :
    (0:ℚ) < 1 ∧
      (outerBand 2 1 = max 2 0 / 1 + 1/2 ∧
       innerBand 2 1 = max (-2) 0 / 1 + 1/2) :=
  ⟨by norm_num, meshToVolume_band_widths 2 1 (by norm_num)⟩

/-- C8: for every configuration with `voxelSize > 0`, Policy A passes the
external level-set kernel the half-width band `|isovalue|/voxelSize + 1.0`. -/
theorem meshToLevelSet_half_width (isovalue voxelSize : ℚ)
    (h : 0 < voxelSize) :
    levelSetHalfWidth isovalue voxelSize = |isovalue| / voxelSize + 1 := by
  rw [levelSetHalfWidth, abs_div, abs_of_pos h]

/-- Witness for C8 at `isovalue = -3`, `voxelSize = 2`. -/
theorem meshToLevelSet_half_width_witness :
    (0:ℚ) < 2 ∧ levelSetHalfWidth (-3) 2 = |(-3 : ℚ)| / 2 + 1 :=
  ⟨by norm_num, meshToLevelSet_half_width (-3) 2 (by norm_num)⟩

/-- C9: if the external isosurface extraction fails inside `volumeToMesh`,
the output mesh is left exactly in its prior state: no vertices and no faces
are added on the failing run, and the error propagates unchanged. -/
theorem volumeToMesh_failure_preserves_mesh (e : String) (prior : OutMesh) :
    volumeToMeshGuarded (.error e) prior = (.error e, prior) ∧
    (volumeToMeshGuarded (.error e) prior).2.vert = prior.vert ∧
    (volumeToMeshGuarded (.error e) prior).2.face = prior.face :=
  ⟨rfl, rfl, rfl⟩

/-- C3 counterexample: at `loopSize = 8`, `W = 4` the slice size computed by
the parallel path of `igl::parallel_for` is `2` (nearest-integer rounding of
`9/4 = 2.25`), not `⌈9/4⌉ = 3`. -/
theorem sliceSize_not_ceil : sliceSize 8 4 ≠ ⌈((8 : ℚ) + 1) / 4⌉ := by
  have h1 : sliceSize 8 4 = 2 := by norm_num [sliceSize, cppRound]
  have h2 : (⌈((8 : ℚ) + 1) / 4⌉ : ℤ) = 3 := by
    rw [Int.ceil_eq_iff]
    norm_num
  rw [h1, h2]
  decide

/-- C3 amended: the slice size used by the parallel path equals
`max(⌊(loopSize+1)/W + 1/2⌋, 1)` — nearest-integer rounding of
`(loopSize+1)/W` (halves away from zero; the argument is nonnegative here),
clamped below by 1 — not the ceiling. -/
theorem sliceSize_round_clamped (loopSize nthreads : ℕ) :
    sliceSize loopSize nthreads
      = max ⌊((loopSize : ℚ) + 1) / nthreads + 1/2⌋ 1 := by
  rw [sliceSize, cppRound, if_pos]
  exact div_nonneg (by positivity) (by positivity)

/-- C6 counterexample: after a first call resolving the worker count to the
hardware concurrency 4, a later call with the explicit override 16 still
returns the memoized 4 — the per-call override is ignored after the first
call, contradicting the claim that an explicit override takes effect on any
call. -/
theorem default_num_threads_override_ignored :
    (default_num_threads (default_num_threads none 0 none 4).2 16 none 4).1 = 4 ∧
    (4 : ℕ) ≠ 16 := by
  constructor
  · rfl
  · decide

/-- C6 amended: on the first call (no memoized value) the resolution returns,
in priority order, the nonzero explicit override, else the positive
environment thread count, else the nonzero hardware concurrency, else the
fixed fallback 8, and this result is memoized; every later call returns the
memoized value regardless of its own override argument (first-call-wins). -/
theorem default_num_threads_resolution (m force : ℕ) (env : Option ℤ)
    (hw : ℕ) :
    default_num_threads (some m) force env hw = (m, some m) ∧
    default_num_threads none force env hw
      = (resolveNumThreads force env hw, some (resolveNumThreads force env hw)) ∧
    (force ≠ 0 → resolveNumThreads force env hw = force) ∧
    (∀ v : ℤ, force = 0 → env = some v → 0 < v →
      resolveNumThreads force env hw = v.toNat) ∧
    (force = 0 → env.elim True (fun v => v ≤ 0) → hw ≠ 0 →
      resolveNumThreads force env hw = hw) ∧
    (force = 0 → env.elim True (fun v => v ≤ 0) → hw = 0 →
      resolveNumThreads force env hw = 8) := by
  refine ⟨rfl, rfl, ?_, ?_, ?_, ?_⟩
  · intro hf
    rw [resolveNumThreads.eq_def, if_pos hf]
  · intro v hf he hv
    subst hf he
    simp [resolveNumThreads, hv]
  · intro hf he hhw
    subst hf
    cases env with
    | none => simp [resolveNumThreads, hhw]
    | some v =>
      have hv : ¬ (0 < v) := not_lt.mpr (by simpa using he)
      simp [resolveNumThreads, hv, hhw]
  · intro hf he hhw
    subst hf hhw
    cases env with
    | none => simp [resolveNumThreads]
    | some v =>
      have hv : ¬ (0 < v) := not_lt.mpr (by simpa using he)
      simp [resolveNumThreads, hv]

/-- Witness for C6 amended, exercising each branch of the resolution order
and the memoized fast path. -/
theorem default_num_threads_resolution_witness :
    default_num_threads (some 7) 5 none 4 = (7, some 7) ∧
    resolveNumThreads 5 none 4 = 5 ∧
    resolveNumThreads 0 (some 3) 4 = (3 : ℤ).toNat ∧
    resolveNumThreads 0 (some (-2)) 4 = 4 ∧
    resolveNumThreads 0 none 0 = 8 :=
  ⟨(default_num_threads_resolution 7 5 none 4).1,
   (default_num_threads_resolution 7 5 none 4).2.2.1 (by decide),
   (default_num_threads_resolution 7 0 (some 3) 4).2.2.2.1 3 rfl rfl (by decide),
   (default_num_threads_resolution 7 0 (some (-2)) 4).2.2.2.2.1 rfl
     (by show (-2 : ℤ) ≤ 0; decide) (by decide),
   (default_num_threads_resolution 7 0 none 0).2.2.2.2.2 rfl trivial rfl⟩

/-- C7: `volumeToMesh` allocates exactly `|vertices|` vertices and
`|triangles| + 2·|quads|` faces, emits each triangle `(a,b,c)` reversed as
`(c,b,a)`, splits each quad `(a,b,c,d)` into exactly `(c,b,a)` and `(d,c,a)`;
the quad `(0,1,2,3)` yields `(2,1,0)` and `(3,2,0)`, and the empty soup
yields an empty mesh. -/
theorem volumeToMesh_reconstruction (vtx : List (ℚ × ℚ × ℚ))
    (tri : List (ℕ × ℕ × ℕ)) (quad : List (ℕ × ℕ × ℕ × ℕ)) :
    (volumeToMeshModel vtx tri quad).vert.length = vtx.length ∧
    (volumeToMeshModel vtx tri quad).face.length
      = tri.length + 2 * quad.length ∧
    (volumeToMeshModel vtx tri quad).face
      = tri.map (fun x => (x.2.2, x.2.1, x.1)) ++
        quad.flatMap (fun q =>
          [(q.2.2.1, q.2.1, q.1), (q.2.2.2, q.2.2.1, q.1)]) ∧
    (volumeToMeshModel [] [] [(0, 1, 2, 3)]).face = [(2, 1, 0), (3, 2, 0)] ∧
    volumeToMeshModel [] [] [] = ⟨[], []⟩ := by
  refine ⟨?_, ?_, ?_, rfl, rfl⟩
  · show (copyVerts vtx).length = vtx.length
    rw [copyVerts_eq]
  · show (triFaces tri ++ quadFaces quad).length = tri.length + 2 * quad.length
    rw [List.length_append, triFaces_eq_map, List.length_map, quadFaces_length]
  · show triFaces tri ++ quadFaces quad = _
    rw [triFaces_eq_map, quadFaces_eq_flatMap]

/-- The constant-zero solid-angle oracle, used as a concrete instance. -/
noncomputable def zeroOracle : Pt → ℝ → ℝ := fun _ _ => 0

/-- C10: the interior-test callback evaluates the oracle with the configured
`voxelSize` as the accuracy scale: its verdict is invariant under changing
the oracle anywhere except at scale `voxelSize`, and there are oracles that
agree at the default accuracy scale 2.0 yet classify differently — so the
callback does not use the oracle's default scale. -/
theorem interiorTest_accuracy_scale (voxelSize : ℝ) (coord : ℤ × ℤ × ℤ)
    (sa₁ sa₂ : Pt → ℝ → ℝ)
    (h : ∀ p, sa₁ p voxelSize = sa₂ p voxelSize) :
    (interiorTest sa₁ voxelSize coord ↔ interiorTest sa₂ voxelSize coord) ∧
    ∃ sb₁ sb₂ : Pt → ℝ → ℝ, ∃ w : ℝ, ∃ d : ℤ × ℤ × ℤ,
      (∀ p s, s = defaultAccuracyScale → sb₁ p s = sb₂ p s) ∧
      ¬(interiorTest sb₁ w d ↔ interiorTest sb₂ w d) := by
  classical
  constructor
  · rw [interiorTest, interiorTest, computeWindingNumber, computeWindingNumber, h]
  · refine ⟨fun _ _ => 0,
      fun _ s => if s = defaultAccuracyScale then 0 else 4 * Real.pi,
      1, (0, 0, 0), ?_, ?_⟩
    · intro p s hs
      show (0 : ℝ) = if s = defaultAccuracyScale then 0 else 4 * Real.pi
      rw [if_pos hs]
    · have hpi : (4 : ℝ) * Real.pi ≠ 0 := by positivity
      have hne : (1 : ℝ) ≠ defaultAccuracyScale := by
        rw [defaultAccuracyScale]
        norm_num
      have h₂ : interiorTest
          (fun _ s => if s = defaultAccuracyScale then 0 else 4 * Real.pi)
          1 (0, 0, 0) := by
        rw [interiorTest, computeWindingNumber]
        simp only [if_neg hne, div_self hpi]
        norm_num
      intro hiff
      have h₁ := hiff.mpr h₂
      rw [interiorTest, computeWindingNumber, zero_div, abs_zero] at h₁
      norm_num at h₁

/-- Witness for C10: both oracles equal to the constant-zero oracle. -/
theorem interiorTest_accuracy_scale_witness :
    (∀ p : Pt, zeroOracle p 1 = zeroOracle p 1) ∧
    ((interiorTest zeroOracle 1 (0, 0, 0) ↔ interiorTest zeroOracle 1 (0, 0, 0)) ∧
      ∃ sb₁ sb₂ : Pt → ℝ → ℝ, ∃ w : ℝ, ∃ d : ℤ × ℤ × ℤ,
        (∀ p s, s = defaultAccuracyScale → sb₁ p s = sb₂ p s) ∧
        ¬(interiorTest sb₁ w d ↔ interiorTest sb₂ w d)) :=
  ⟨fun _ => rfl,
   interiorTest_accuracy_scale 1 (0, 0, 0) zeroOracle zeroOracle fun _ => rfl⟩

/-! ## Partition lemmas for the parallel path -/

/-- The indices covered by the slices spawned from state `(fuel, t, i1)` are
exactly `[i1, loopSize)`. -/
lemma poolLoop_flatMap (slice loopSize : ℕ) :
    ∀ fuel t i1 : ℕ, i1 ≤ loopSize →
      ((poolLoop slice loopSize fuel t i1).flatMap fun s =>
          List.range' s.1 (s.2.1 - s.1))
        = List.range' i1 (loopSize - i1) := by
  intro fuel
  induction fuel with
  | zero =>
    intro t i1 h1
    by_cases hi : i1 < loopSize
    · rw [poolLoop, if_pos hi]
      simp
    · have he : i1 = loopSize := le_antisymm h1 (not_lt.mp hi)
      subst he
      rw [poolLoop, if_neg hi]
      simp
  | succ fuel ih =>
    intro t i1 h1
    by_cases hi : i1 < loopSize
    · rw [poolLoop, if_pos hi, List.flatMap_cons]
      dsimp only
      rw [ih (t + 1) (min (i1 + slice) loopSize) (min_le_right _ _)]
      have hm1 : i1 ≤ min (i1 + slice) loopSize :=
        le_min (Nat.le_add_right _ _) h1
      have h3 : i1 + (min (i1 + slice) loopSize - i1)
          = min (i1 + slice) loopSize := Nat.add_sub_cancel' hm1
      rw [show List.range' (min (i1 + slice) loopSize)
            (loopSize - min (i1 + slice) loopSize)
          = List.range' (i1 + (min (i1 + slice) loopSize - i1))
            (loopSize - min (i1 + slice) loopSize) by rw [h3],
        List.range'_append_1]
      congr 1
      omega
    · have he : i1 = loopSize := le_antisymm h1 (not_lt.mp hi)
      subst he
      rw [poolLoop, if_neg hi]
      simp

/-- The slices of the parallel path cover exactly `[0, loopSize)`. -/
lemma parallelSlices_flatten (loopSize nthreads : ℕ) :
    ((parallelSlices loopSize nthreads).flatMap fun s =>
        List.range' s.1 (s.2.1 - s.1)) = List.range loopSize := by
  rw [parallelSlices, poolLoop_flatMap _ _ _ 0 0 (Nat.zero_le _),
    Nat.sub_zero, List.range_eq_range']

/-- `filterMap bodyIdx` over a block of body events recovers the indices. -/
lemma filterMap_bodyIdx_map (l : List ℕ) (t : ℕ) :
    ((l.map fun i => PfEvent.body i t).filterMap bodyIdx) = l := by
  induction l with
  | nil => rfl
  | cons hd tl ih => simp [List.filterMap_cons, bodyIdx, ih]

/-- Body events contain no accumulation events. -/
lemma filterMap_accumIdx_map_body (l : List ℕ) (t : ℕ) :
    ((l.map fun i => PfEvent.body i t).filterMap accumIdx) = [] := by
  induction l with
  | nil => rfl
  | cons hd tl ih => simp [List.filterMap_cons, accumIdx, ih]

/-- Accumulation events contain no body events. -/
lemma filterMap_bodyIdx_map_accum (l : List ℕ) :
    ((l.map PfEvent.accum).filterMap bodyIdx) = [] := by
  induction l with
  | nil => rfl
  | cons hd tl ih => simp [List.filterMap_cons, bodyIdx, ih]

/-- `filterMap accumIdx` over a block of accumulation events recovers the
worker ids. -/
lemma filterMap_accumIdx_map_accum (l : List ℕ) :
    ((l.map PfEvent.accum).filterMap accumIdx) = l := by
  induction l with
  | nil => rfl
  | cons hd tl ih => simp [List.filterMap_cons, accumIdx, ih]

/-- The body events generated from slices carry exactly the sliced indices. -/
lemma filterMap_bodyIdx_flat (l : List (ℕ × ℕ × ℕ)) :
    ((l.flatMap fun s =>
        (List.range' s.1 (s.2.1 - s.1)).map fun i => PfEvent.body i s.2.2)
      |>.filterMap bodyIdx)
      = l.flatMap fun s => List.range' s.1 (s.2.1 - s.1) := by
  induction l with
  | nil => rfl
  | cons hd tl ih =>
    rw [List.flatMap_cons, List.flatMap_cons, List.filterMap_append, ih,
      filterMap_bodyIdx_map]

/-- The body events generated from slices contain no accumulation events. -/
lemma filterMap_accumIdx_flat (l : List (ℕ × ℕ × ℕ)) :
    ((l.flatMap fun s =>
        (List.range' s.1 (s.2.1 - s.1)).map fun i => PfEvent.body i s.2.2)
      |>.filterMap accumIdx) = [] := by
  induction l with
  | nil => rfl
  | cons hd tl ih =>
    rw [List.flatMap_cons, List.filterMap_append, ih,
      filterMap_accumIdx_map_body]
    rfl

/-- C4: in the parallel path, the spawned slices are contiguous and
non-overlapping, their union covers `[0, loopSize)` exactly — each index is
passed to `body` exactly once — and after all body work the trace ends with
`accumulate(t)` for every `t` in `[0, W)`, workers with empty slices
included. -/
theorem parallel_partition_and_accumulate (loopSize nthreads : ℕ) :
    (parallelEvents loopSize nthreads).filterMap bodyIdx
      = List.range loopSize ∧
    (parallelEvents loopSize nthreads).filterMap accumIdx
      = List.range nthreads ∧
    ∃ bodies : List PfEvent,
      parallelEvents loopSize nthreads
        = PfEvent.prep nthreads ::
            bodies ++ (List.range nthreads).map PfEvent.accum ∧
      ∀ e ∈ bodies, ∃ i t, e = PfEvent.body i t := by
  refine ⟨?_, ?_, ?_⟩
  · rw [parallelEvents, List.cons_append, List.filterMap_cons]
    simp only [bodyIdx]
    rw [List.filterMap_append, filterMap_bodyIdx_flat,
      filterMap_bodyIdx_map_accum, List.append_nil, parallelSlices_flatten]
  · rw [parallelEvents, List.cons_append, List.filterMap_cons]
    simp only [accumIdx]
    rw [List.filterMap_append, filterMap_accumIdx_flat,
      filterMap_accumIdx_map_accum, List.nil_append]
  · refine ⟨_, List.cons_append _ _ _, ?_⟩
    intro e he
    rw [List.mem_flatMap] at he
    obtain ⟨s, _, hm⟩ := he
    rw [List.mem_map] at hm
    obtain ⟨i, _, rfl⟩ := hm
    exact ⟨i, s.2.2, rfl⟩

/-- C5: `parallel_for` with `loopSize = 0` is a no-op returning `false`
("did not parallelize"); with `0 < loopSize` and `loopSize < minParallel`
or a resolved worker count ≤ 1 it runs serially — `prepare(1)`, then
`body(i, 0)` for each `i` in strictly increasing order on worker 0, then
`accumulate(0)` — returning `false`. -/
theorem parallel_for_serial (loopSize minParallel nthreads : ℕ) :
    parallelForRun 0 minParallel nthreads = (false, []) ∧
    (0 < loopSize → loopSize < minParallel ∨ nthreads ≤ 1 →
      parallelForRun loopSize minParallel nthreads
        = (false, PfEvent.prep 1 ::
            ((List.range loopSize).map fun i => PfEvent.body i 0)
              ++ [PfEvent.accum 0]) ∧
      (parallelForRun loopSize minParallel nthreads).2.filterMap bodyIdx
        = List.range loopSize ∧
      List.Pairwise (· < ·)
        ((parallelForRun loopSize minParallel nthreads).2.filterMap bodyIdx) ∧
      (∀ i t, PfEvent.body i t ∈
        (parallelForRun loopSize minParallel nthreads).2 → t = 0)) := by
  constructor
  · rw [parallelForRun, if_pos rfl]
  · intro h0 hser
    have hne : loopSize ≠ 0 := Nat.pos_iff_ne_zero.mp h0
    have hrun : parallelForRun loopSize minParallel nthreads
        = (false, PfEvent.prep 1 ::
            ((List.range loopSize).map fun i => PfEvent.body i 0)
              ++ [PfEvent.accum 0]) := by
      rw [parallelForRun, if_neg hne, if_pos hser]
    have hfm : (parallelForRun loopSize minParallel nthreads).2.filterMap
        bodyIdx = List.range loopSize := by
      rw [hrun]
      show List.filterMap bodyIdx
        ((PfEvent.prep 1 ::
          (List.range loopSize).map fun i => PfEvent.body i 0)
            ++ [PfEvent.accum 0]) = _
      rw [List.cons_append, List.filterMap_cons]
      simp only [bodyIdx]
      rw [List.filterMap_append, filterMap_bodyIdx_map]
      simp [bodyIdx]
    refine ⟨hrun, hfm, ?_, ?_⟩
    · rw [hfm]
      exact List.pairwise_lt_range loopSize
    · intro i t hmem
      rw [hrun] at hmem
      have h' : PfEvent.body i t = PfEvent.prep 1 ∨
          ∃ a, a < loopSize ∧ PfEvent.body a 0 = PfEvent.body i t := by
        simpa using hmem
      rcases h' with h | ⟨a, _, ha⟩
      · exact absurd h (by simp)
      · injection ha with _ h2
        exact h2.symm

/-- Witness for C5 at `loopSize = 3`, `minParallel = 10`, `nthreads = 4`. -/
theorem parallel_for_serial_witness :
    0 < 3 ∧ ((3 : ℕ) < 10 ∨ (4 : ℕ) ≤ 1) ∧
    (parallelForRun 3 10 4
        = (false, PfEvent.prep 1 ::
            ((List.range 3).map fun i => PfEvent.body i 0)
              ++ [PfEvent.accum 0]) ∧
      (parallelForRun 3 10 4).2.filterMap bodyIdx = List.range 3 ∧
      List.Pairwise (· < ·) ((parallelForRun 3 10 4).2.filterMap bodyIdx) ∧
      (∀ i t, PfEvent.body i t ∈ (parallelForRun 3 10 4).2 → t = 0)) :=
  ⟨by decide, by decide,
   (parallel_for_serial 3 10 4).2 (by decide) (by decide)⟩

end VCGLib
